import Mathlib

/- Shallow embedding of the goskills skill-package parser (skill parser in
package goskills: parseMarkdownBody, extractFrontmatterAndBody,
findResourceFiles, ParseSkillPackage).  Byte strings are modelled as
List Char, the markdown body scanner as a structural state machine over
the list of lines, and the Go run-time panic reachable in the
implementation-marker branch as Option.none. -/

namespace GoSkills

/- Characters written via code points to keep source plain. -/
def backtick : Char := Char.ofNat 96

def dquote : Char := Char.ofNat 34

/- RE2 class \s is [\t\n\f\r ]. -/
def reIsSpace (c : Char) : Bool :=
  c == ' ' || c == '\t' || c == '\n' || c == Char.ofNat 12 || c == '\r'

/- Go unicode.IsSpace on the Latin-1 range, as used by strings.TrimSpace. -/
def goIsSpace (c : Char) : Bool :=
  c == ' ' || c == '\t' || c == '\n' || c == Char.ofNat 11 || c == Char.ofNat 12 ||
  c == '\r' || c == Char.ofNat 133 || c == Char.ofNat 160

def goTrimList (l : List Char) : List Char :=
  ((l.dropWhile goIsSpace).reverse.dropWhile goIsSpace).reverse

def goTrimS (l : List Char) : String := String.mk (goTrimList l)

/- bufio.Scanner with ScanLines: split at newline, drop a final empty
token, and drop one trailing carriage return per line. -/
def breakLines : List Char → List (List Char)
  | [] => [[]]
  | c :: rest =>
    if c == '\n' then [] :: breakLines rest
    else
      match breakLines rest with
      | [] => [[c]]
      | l :: ls => (c :: l) :: ls

def dropCR (l : List Char) : List Char :=
  if l.getLast? == some '\r' then l.dropLast else l

def goLines (s : String) : List (List Char) :=
  let ls := breakLines s.data
  (if ls.getLast? == some [] then ls.dropLast else ls).map dropCR

/- stripLit p l returns the remainder of l after the literal p, when p
is a leading literal of l. -/
def stripLit : List Char → List Char → Option (List Char)
  | [], l => some l
  | _ :: _, [] => none
  | p :: ps, c :: cs => if c == p then stripLit ps cs else none

/- titleRegex is regexp `[Title]` followed by `\s*:\s*(.*)`: the bracket
expression is a character class over T,i,t,l,e, not the literal text. -/
def titleClass (c : Char) : Bool :=
  c == 'T' || c == 'i' || c == 't' || c == 'l' || c == 'e'

def titleMatch : List Char → Option (List Char)
  | [] => none
  | c :: rest =>
    if titleClass c then
      match rest.dropWhile reIsSpace with
      | [] => none
      | c2 :: r2 => if c2 == ':' then some (r2.dropWhile reIsSpace) else none
    else none

/- sectionRegex `[Section]` is likewise a character class over S,e,c,t,i,o,n;
then `\s*:\s*title:\s*` and a greedy quoted capture up to the last quote. -/
def sectionClass (c : Char) : Bool :=
  c == 'S' || c == 'e' || c == 'c' || c == 't' || c == 'i' || c == 'o' || c == 'n'

def takeToLastQuote (l : List Char) : Option (List Char) :=
  match l.reverse.dropWhile (fun c => !(c == dquote)) with
  | [] => none
  | c :: revCap => if c == dquote then some revCap.reverse else none

def sectionMatch : List Char → Option (List Char)
  | [] => none
  | c :: rest =>
    if sectionClass c then
      match rest.dropWhile reIsSpace with
      | [] => none
      | c2 :: r2 =>
        if c2 == ':' then
          match stripLit "title:".data (r2.dropWhile reIsSpace) with
          | none => none
          | some r3 =>
            match r3.dropWhile reIsSpace with
            | [] => none
            | c3 :: r4 => if c3 == dquote then takeToLastQuote r4 else none
        else none
    else none

def implLead : List Char := "This is the implementation in ".data

def implMatch (l : List Char) : Option (List Char) := stripLit implLead l

/- strings.HasPrefix(line, three backticks). -/
def isFenceLine (l : List Char) : Bool :=
  match l with
  | c1 :: c2 :: c3 :: _ => c1 == backtick && c2 == backtick && c3 == backtick
  | _ => false

/- The four SkillBodyPart variants of the structured body. -/
inductive SkillBodyPart where
  | title (text : String)
  | sectionPart (title content : String)
  | markdown (content : String)
  | implementation (language code : String)
  deriving Repr, DecidableEq

/- Flush of the accumulation buffer as a Markdown part (Title and
Section marker branches). -/
def emitFlush (parts : List SkillBodyPart) (buf : List Char) : List SkillBodyPart :=
  if buf.isEmpty then parts else parts ++ [.markdown (goTrimS buf)]

/- Flush at an Implementation marker: the buffered text backfills the
last part when it is a Section; with no parts at all the Go code indexes
parts[-1] and panics, modelled as none. -/
def implFlush (parts : List SkillBodyPart) (buf : List Char) : Option (List SkillBodyPart) :=
  if buf.isEmpty then some parts
  else
    match parts.getLast? with
    | some (.sectionPart t _) => some (parts.dropLast ++ [.sectionPart t (goTrimS buf)])
    | some _ => some (parts ++ [.markdown (goTrimS buf)])
    | none => none

/- Flush at end of input: backfill the last Section only while its
content is still empty. -/
def finalFlush (parts : List SkillBodyPart) (buf : List Char) : List SkillBodyPart :=
  if buf.isEmpty then parts
  else
    match parts.getLast? with
    | some (.sectionPart t c) =>
      if c = "" then parts.dropLast ++ [.sectionPart t (goTrimS buf)]
      else parts ++ [.markdown (goTrimS buf)]
    | _ => parts ++ [.markdown (goTrimS buf)]

/- Scanner mode: the normal outer loop with its fence flag, or the inner
implementation-block consumption (one unconditionally skipped line, then
collection until a fence-initial line). -/
inductive ScanMode where
  | normal (inCode : Bool)
  | implSkip (lang : List Char)
  | implCollect (lang : List Char) (acc : List Char)
  deriving Repr, DecidableEq

def scanGo : List (List Char) → List SkillBodyPart → List Char → ScanMode →
    Option (List SkillBodyPart)
  | [], parts, buf, .normal _ => some (finalFlush parts buf)
  | [], parts, buf, .implSkip lang =>
    some (finalFlush (parts ++ [.implementation (String.mk lang) ""]) buf)
  | [], parts, buf, .implCollect lang acc =>
    some (finalFlush (parts ++ [.implementation (String.mk lang) (String.mk acc)]) buf)
  | _ :: rest, parts, buf, .implSkip lang =>
    scanGo rest parts buf (.implCollect lang [])
  | line :: rest, parts, buf, .implCollect lang acc =>
    if isFenceLine line then
      scanGo rest (parts ++ [.implementation (String.mk lang) (String.mk acc)]) buf (.normal false)
    else
      scanGo rest parts buf (.implCollect lang (acc ++ line ++ ['\n']))
  | line :: rest, parts, buf, .normal inCode =>
    let inCode2 := if isFenceLine line then !inCode else inCode
    if inCode2 then
      scanGo rest parts (buf ++ line ++ ['\n']) (.normal inCode2)
    else
      match titleMatch line with
      | some t => scanGo rest (emitFlush parts buf ++ [.title (String.mk t)]) [] (.normal inCode2)
      | none =>
        match sectionMatch line with
        | some st =>
          scanGo rest (emitFlush parts buf ++ [.sectionPart (String.mk st) ""]) [] (.normal inCode2)
        | none =>
          match implMatch line with
          | some lang =>
            match implFlush parts buf with
            | none => none
            | some parts2 => scanGo rest parts2 [] (.implSkip lang)
          | none => scanGo rest parts (buf ++ line ++ ['\n']) (.normal inCode2)

/- parseMarkdownBody: scan the body lines from the empty state; none
models the reachable run-time panic. -/
def parseMarkdownBody (body : String) : Option (List SkillBodyPart) :=
  scanGo (goLines body) [] [] (.normal false)

/- SkillMeta: the YAML frontmatter record; absent fields decode to
empty values. -/
structure SkillMeta where
  name : String := ""
  description : String := ""
  allowedTools : List String := []
  model : String := ""
  author : String := ""
  version : String := ""
  license : String := ""
  deriving Repr, DecidableEq

/- splitFirst sep l: the split of l around the leftmost instance of sep. -/
def splitFirst (sep : List Char) : List Char → Option (List Char × List Char)
  | [] =>
    match stripLit sep [] with
    | some r => some ([], r)
    | none => none
  | c :: cs =>
    match stripLit sep (c :: cs) with
    | some rest => some ([], rest)
    | none =>
      match splitFirst sep cs with
      | some (pre, post) => some (c :: pre, post)
      | none => none

/- bytes.SplitN(data, sep, n): split around each leftmost non-overlapping
instance of sep, at most n pieces, the last piece unsplit. -/
def goSplitN (sep : List Char) : Nat → List Char → List (List Char)
  | 0, _ => []
  | 1, l => [l]
  | n + 2, l =>
    match splitFirst sep l with
    | none => [l]
    | some (pre, post) => pre :: goSplitN sep (n + 1) post

def fmSep : List Char := "---".data

inductive FmResult where
  | ok (meta : SkillMeta) (body : String)
  | errMissingFrontmatter
  | errInvalidMetadata
  deriving Repr, DecidableEq

/- extractFrontmatterAndBody: SplitN on the literal three-dash byte
sequence into at most three pieces; fewer than three pieces is the
missing-frontmatter failure; otherwise the second piece is decoded as
YAML (the external yaml.Unmarshal is a parameter) and the third piece,
whitespace-trimmed, is the body. -/
def extractFrontmatterAndBody (yamlDecode : String → Option SkillMeta)
    (data : List Char) : FmResult :=
  match goSplitN fmSep 3 data with
  | _ :: fm :: bodyRest :: _ =>
    match yamlDecode (String.mk fm) with
    | none => .errInvalidMetadata
    | some meta => .ok meta (goTrimS bodyRest)
  | _ => .errMissingFrontmatter

/- os.Stat outcome: absent, failed with another error, or found with an
is-directory flag. -/
inductive StatRes where
  | notExist
  | statFailed
  | found (isDir : Bool)
  deriving Repr, DecidableEq

/- os.ReadFile outcome. -/
inductive ReadRes where
  | notExist
  | readFailed
  | content (data : List Char)
  deriving Repr, DecidableEq

/- The external world the package assembly touches: the filesystem
calls and the external YAML decoder and directory walker. -/
structure World where
  stat : String → StatRes
  readFile : String → ReadRes
  walk : String → Option (List String)
  yamlDecode : String → Option SkillMeta

def pathJoin (a b : String) : String := a ++ "/" ++ b

structure SkillResources where
  scripts : List String
  references : List String
  assets : List String
  deriving Repr, DecidableEq

structure SkillPackage where
  path : String
  meta : SkillMeta
  body : List SkillBodyPart
  resources : SkillResources
  deriving Repr, DecidableEq

/- The distinct error returns of ParseSkillPackage, one per Go return
site, plus the pass-through kinds of the frontmatter stage. -/
inductive PkgErr where
  | skillDirNotFound
  | pathNotADirectory
  | statOtherError
  | skillMdNotFound
  | skillMdReadError
  | missingFrontmatter
  | invalidMetadata
  | resourceScanError (category : String)
  deriving Repr, DecidableEq

/- The MissingDirectory error kind of the specification covers the two
directory-level failure messages. -/
def isMissingDirectoryErr : PkgErr → Bool
  | .skillDirNotFound => true
  | .pathNotADirectory => true
  | _ => false

/- findResourceFiles: a missing resource directory yields the empty
list with no error; otherwise the external recursive walk runs (none
models a walk error). -/
def findResourceFiles (w : World) (skillPath resourceDir : String) : Option (List String) :=
  let scanDir := pathJoin skillPath resourceDir
  match w.stat scanDir with
  | .notExist => some []
  | _ => w.walk scanDir

/- ParseSkillPackage: each Go return site maps to some (package?, error?);
the outer none models the panic propagating out of parseMarkdownBody. -/
def ParseSkillPackage (w : World) (dirPath : String) :
    Option (Option SkillPackage × Option PkgErr) :=
  match w.stat dirPath with
  | .notExist => some (none, some .skillDirNotFound)
  | .statFailed => some (none, some .statOtherError)
  | .found false => some (none, some .pathNotADirectory)
  | .found true =>
    match w.readFile (pathJoin dirPath "SKILL.md") with
    | .notExist => some (none, some .skillMdNotFound)
    | .readFailed => some (none, some .skillMdReadError)
    | .content data =>
      match extractFrontmatterAndBody w.yamlDecode data with
      | .errMissingFrontmatter => some (none, some .missingFrontmatter)
      | .errInvalidMetadata => some (none, some .invalidMetadata)
      | .ok meta bodyStr =>
        match parseMarkdownBody bodyStr with
        | none => none
        | some bodyParts =>
          match findResourceFiles w dirPath "scripts" with
          | none => some (none, some (.resourceScanError "scripts"))
          | some scripts =>
            match findResourceFiles w dirPath "references" with
            | none => some (none, some (.resourceScanError "references"))
            | some references =>
              match findResourceFiles w dirPath "assets" with
              | none => some (none, some (.resourceScanError "assets"))
              | some assets =>
                some (some { path := dirPath, meta := meta, body := bodyParts,
                             resources := { scripts := scripts, references := references,
                                            assets := assets } }, none)

/- hasTwoSeps: the document holds at least two non-overlapping instances
of the three-dash separator. -/
def hasTwoSeps (data : List Char) : Bool :=
  match splitFirst fmSep data with
  | none => false
  | some (_, rest) => (splitFirst fmSep rest).isSome

/-- Modelled from the spec: a frontmatter delimiter line is a line
consisting solely of three dash characters; this counts the delimiter
lines of a document, with lines split at newlines as the code splits
lines.  It is the spec-side reading of the delimiter, stated here to be
compared with the substring split the code performs. -/
def specDelimiterLineCount (data : List Char) : Nat :=
  ((breakLines data).map dropCR).countP (fun l => l == fmSep)

/- Concrete worlds used to instantiate the package-level theorems. -/
def wAbsent : World :=
  { stat := fun _ => .notExist
  , readFile := fun _ => .notExist
  , walk := fun _ => none
  , yamlDecode := fun _ => none }

def wNoMd : World :=
  { stat := fun _ => .found true
  , readFile := fun _ => .notExist
  , walk := fun _ => none
  , yamlDecode := fun _ => none }

def wOk : World :=
  { stat := fun q => if q = "d" then .found true else .notExist
  , readFile := fun q =>
      if q = "d/SKILL.md" then .content "---\nname: x\n---\nhello".data else .notExist
  , walk := fun _ => none
  , yamlDecode := fun _ => some {} }

def pkgOk : SkillPackage :=
  { path := "d", meta := {}, body := [.markdown "hello"],
    resources := { scripts := [], references := [], assets := [] } }

/- ------------------------------------------------------------------ -/
/- Supporting lemmas                                                   -/
/- ------------------------------------------------------------------ -/

def joinNl : List (List Char) → List Char
  | [] => []
  | l :: ls => l ++ '\n' :: joinNl ls

theorem stripLit_some : ∀ (p l r : List Char), stripLit p l = some r → l = p ++ r := by
  intro p
  induction p with
  | nil =>
    intro l r h
    simp only [stripLit, Option.some.injEq] at h
    simpa using h
  | cons a ps ih =>
    intro l r h
    cases l with
    | nil => simp [stripLit] at h
    | cons c cs =>
      simp only [stripLit] at h
      by_cases hc : (c == a) = true
      · rw [if_pos hc] at h
        have hca : c = a := by simpa using hc
        subst hca
        have := ih cs r h
        simp [this]
      · rw [if_neg hc] at h
        exact absurd h (by simp)

theorem splitFirst_some :
    ∀ (sep l pre post : List Char), splitFirst sep l = some (pre, post) →
      l = pre ++ sep ++ post := by
  intro sep l
  induction l with
  | nil =>
    intro pre post h
    simp only [splitFirst] at h
    cases hs : stripLit sep [] with
    | none => rw [hs] at h; exact absurd h (by simp)
    | some r =>
      rw [hs] at h
      have hl := stripLit_some sep [] r hs
      simp only [Option.some.injEq, Prod.mk.injEq] at h
      obtain ⟨h1, h2⟩ := h
      subst h1; subst h2
      simpa using hl
  | cons c cs ih =>
    intro pre post h
    simp only [splitFirst] at h
    cases hs : stripLit sep (c :: cs) with
    | some rest =>
      rw [hs] at h
      simp only [Option.some.injEq, Prod.mk.injEq] at h
      obtain ⟨h1, h2⟩ := h
      rw [← h1, ← h2]
      simpa using stripLit_some sep (c :: cs) rest hs
    | none =>
      rw [hs] at h
      cases hsf : splitFirst sep cs with
      | none => rw [hsf] at h; exact absurd h (by simp)
      | some pp =>
        obtain ⟨p1, p2⟩ := pp
        rw [hsf] at h
        simp only [Option.some.injEq, Prod.mk.injEq] at h
        obtain ⟨h1, h2⟩ := h
        have hcs := ih p1 p2 hsf
        subst h1; subst h2
        simp [hcs]

theorem isFenceLine_cons_ne (c : Char) (rest : List Char) (h : (c == backtick) = false) :
    isFenceLine (c :: rest) = false := by
  cases rest with
  | nil => rfl
  | cons c2 r2 =>
    cases r2 with
    | nil => rfl
    | cons c3 r3 => simp [isFenceLine, h]

theorem titleMatch_head :
    ∀ (l t : List Char), titleMatch l = some t →
      ∃ c rest, l = c :: rest ∧ titleClass c = true := by
  intro l t h
  cases l with
  | nil => simp [titleMatch] at h
  | cons c rest =>
    refine ⟨c, rest, rfl, ?_⟩
    by_contra hc
    have hc2 : titleClass c = false := by
      cases hcv : titleClass c
      · rfl
      · exact absurd hcv hc
    simp [titleMatch, hc2] at h

theorem titleClass_not_backtick (c : Char) (h : titleClass c = true) :
    (c == backtick) = false := by
  simp only [titleClass, Bool.or_eq_true, beq_iff_eq] at h
  rcases h with (((h | h) | h) | h) | h <;> subst h <;> decide

theorem titleMatch_not_fence (l t : List Char) (h : titleMatch l = some t) :
    isFenceLine l = false := by
  obtain ⟨c, rest, hl, hc⟩ := titleMatch_head l t h
  subst hl
  exact isFenceLine_cons_ne c rest (titleClass_not_backtick c hc)

theorem sectionMatch_head :
    ∀ (l t : List Char), sectionMatch l = some t →
      ∃ c rest, l = c :: rest ∧ sectionClass c = true := by
  intro l t h
  cases l with
  | nil => simp [sectionMatch] at h
  | cons c rest =>
    refine ⟨c, rest, rfl, ?_⟩
    by_contra hc
    have hc2 : sectionClass c = false := by
      cases hcv : sectionClass c
      · rfl
      · exact absurd hcv hc
    simp [sectionMatch, hc2] at h

theorem sectionClass_not_backtick (c : Char) (h : sectionClass c = true) :
    (c == backtick) = false := by
  simp only [sectionClass, Bool.or_eq_true, beq_iff_eq] at h
  rcases h with (((((h | h) | h) | h) | h) | h) | h <;> subst h <;> decide

theorem sectionMatch_not_fence (l t : List Char) (h : sectionMatch l = some t) :
    isFenceLine l = false := by
  obtain ⟨c, rest, hl, hc⟩ := sectionMatch_head l t h
  subst hl
  exact isFenceLine_cons_ne c rest (sectionClass_not_backtick c hc)

theorem implMatch_shape (l r : List Char) (h : implMatch l = some r) :
    l = 'T' :: 'h' :: ("is is the implementation in ".data ++ r) := by
  have hl : l = implLead ++ r := stripLit_some implLead l r h
  rw [hl]
  rfl

theorem implMatch_titleMatch (l r : List Char) (h : implMatch l = some r) :
    titleMatch l = none := by
  rw [implMatch_shape l r h]
  have h1 : reIsSpace 'h' = false := by decide
  have h2 : ('h' == ':') = false := by decide
  simp [titleMatch, List.dropWhile_cons, h1, h2]

theorem implMatch_sectionMatch (l r : List Char) (h : implMatch l = some r) :
    sectionMatch l = none := by
  rw [implMatch_shape l r h]
  have h1 : sectionClass 'T' = false := by decide
  simp [sectionMatch, h1]

theorem implMatch_not_fence (l r : List Char) (h : implMatch l = some r) :
    isFenceLine l = false := by
  rw [implMatch_shape l r h]
  exact isFenceLine_cons_ne _ _ (by decide)

theorem scanGo_normal_cons (line : List Char) (rest : List (List Char))
    (parts : List SkillBodyPart) (buf : List Char) (inCode : Bool) :
    scanGo (line :: rest) parts buf (.normal inCode) =
      (let inCode2 := if isFenceLine line then !inCode else inCode
       if inCode2 then
         scanGo rest parts (buf ++ line ++ ['\n']) (.normal inCode2)
       else
         match titleMatch line with
         | some t => scanGo rest (emitFlush parts buf ++ [.title (String.mk t)]) [] (.normal inCode2)
         | none =>
           match sectionMatch line with
           | some st =>
             scanGo rest (emitFlush parts buf ++ [.sectionPart (String.mk st) ""]) [] (.normal inCode2)
           | none =>
             match implMatch line with
             | some lang =>
               match implFlush parts buf with
               | none => none
               | some parts2 => scanGo rest parts2 [] (.implSkip lang)
             | none => scanGo rest parts (buf ++ line ++ ['\n']) (.normal inCode2)) := rfl

theorem scanGo_implSkip_cons (line : List Char) (rest : List (List Char))
    (parts : List SkillBodyPart) (buf : List Char) (lang : List Char) :
    scanGo (line :: rest) parts buf (.implSkip lang) =
      scanGo rest parts buf (.implCollect lang []) := rfl

theorem scanGo_implCollect_cons_fence (line : List Char) (rest : List (List Char))
    (parts : List SkillBodyPart) (buf : List Char) (lang acc : List Char)
    (h : isFenceLine line = true) :
    scanGo (line :: rest) parts buf (.implCollect lang acc) =
      scanGo rest (parts ++ [.implementation (String.mk lang) (String.mk acc)]) buf
        (.normal false) := by
  simp [scanGo, h]

theorem scanGo_implCollect_cons_nofence (line : List Char) (rest : List (List Char))
    (parts : List SkillBodyPart) (buf : List Char) (lang acc : List Char)
    (h : isFenceLine line = false) :
    scanGo (line :: rest) parts buf (.implCollect lang acc) =
      scanGo rest parts buf (.implCollect lang (acc ++ line ++ ['\n'])) := by
  simp [scanGo, h]

theorem scanGo_implCollect_append :
    ∀ (codeLines : List (List Char)) (closeF : List Char) (after : List (List Char))
      (parts : List SkillBodyPart) (buf : List Char) (lang acc : List Char),
      (∀ l ∈ codeLines, isFenceLine l = false) → isFenceLine closeF = true →
      scanGo (codeLines ++ closeF :: after) parts buf (.implCollect lang acc) =
        scanGo after
          (parts ++ [.implementation (String.mk lang) (String.mk (acc ++ joinNl codeLines))])
          buf (.normal false) := by
  intro codeLines
  induction codeLines with
  | nil =>
    intro closeF after parts buf lang acc _ hclose
    rw [List.nil_append, scanGo_implCollect_cons_fence _ _ _ _ _ _ hclose]
    simp [joinNl]
  | cons l ls ih =>
    intro closeF after parts buf lang acc hcode hclose
    have hl : isFenceLine l = false := hcode l (by simp)
    have hls : ∀ x ∈ ls, isFenceLine x = false := fun x hx => hcode x (by simp [hx])
    rw [List.cons_append, scanGo_implCollect_cons_nofence _ _ _ _ _ _ hl,
      ih closeF after parts buf lang (acc ++ l ++ ['\n']) hls hclose]
    simp [joinNl, List.append_assoc]

theorem isEmpty_false_of_ne (buf : List Char) (h : buf ≠ []) : buf.isEmpty = false := by
  cases buf with
  | nil => exact absurd rfl h
  | cons a l => rfl

theorem emitFlush_ne (parts : List SkillBodyPart) (buf : List Char) (h : buf ≠ []) :
    emitFlush parts buf = parts ++ [.markdown (goTrimS buf)] := by
  simp [emitFlush, isEmpty_false_of_ne buf h]

theorem implFlush_section (parts : List SkillBodyPart) (t c : String) (buf : List Char)
    (h : buf ≠ []) :
    implFlush (parts ++ [.sectionPart t c]) buf =
      some (parts ++ [.sectionPart t (goTrimS buf)]) := by
  simp [implFlush, isEmpty_false_of_ne buf h, List.getLast?_concat, List.dropLast_concat]

theorem finalFlush_section_empty (parts : List SkillBodyPart) (t : String) (buf : List Char)
    (h : buf ≠ []) :
    finalFlush (parts ++ [.sectionPart t ""]) buf =
      parts ++ [.sectionPart t (goTrimS buf)] := by
  simp [finalFlush, isEmpty_false_of_ne buf h, List.getLast?_concat, List.dropLast_concat]

theorem goSplitN3 (sep l : List Char) :
    goSplitN sep 3 l =
      (match splitFirst sep l with
       | none => [l]
       | some (pre, post) =>
         pre ::
           (match splitFirst sep post with
            | none => [post]
            | some (fm, b) => fm :: [b])) := rfl

theorem parseOk_resources (w : World) (p : String) (pkg : SkillPackage)
    (h : ParseSkillPackage w p = some (some pkg, none)) :
    findResourceFiles w p "scripts" = some pkg.resources.scripts
    ∧ findResourceFiles w p "references" = some pkg.resources.references
    ∧ findResourceFiles w p "assets" = some pkg.resources.assets := by
  unfold ParseSkillPackage at h
  repeat' split at h
  all_goals simp_all
  subst h
  exact ⟨rfl, rfl, rfl⟩

/- ------------------------------------------------------------------ -/
/- Claim theorems                                                      -/
/- ------------------------------------------------------------------ -/

/-- C1: on the concrete scenario body the claim expects the segment
sequence Title, Markdown, Section, Implementation.  The code disagrees:
the bracketed marker lines match neither titleRegex nor sectionRegex
(their bracket expressions are character classes over T,i,t,l,e and
S,e,c,t,i,o,n, not literal text), so when the implementation marker is
reached the accumulated text is flushed with no previously emitted part
and the Go code indexes parts[-1] and panics (modelled as none). -/
theorem c1_concrete_scenario_code_eval :
    titleMatch "[Title]: Test Skill Title".data = none
    ∧ sectionMatch "[Section]: title: \"Section 1\"".data = none
    ∧ parseMarkdownBody
        "[Title]: Test Skill Title\n\nThis skill is designed to test the parser.\n\n[Section]: title: \"Section 1\"\n\n- item one\n\nThis is the implementation in bash\n```bash\necho \"Hello from bash\"\n```"
      = none := by
  refine ⟨rfl, rfl, ?_⟩
  decide

/-- C4: the empty body does yield the empty segment sequence, but the
segmenter is not total: on a body whose implementation marker is
preceded by accumulated text and no previously emitted segment the Go
code indexes parts[-1] and panics (modelled as none). -/
theorem c4_totality_code_eval :
    parseMarkdownBody "" = some []
    ∧ parseMarkdownBody "intro\nThis is the implementation in bash" = none := by
  constructor
  · rfl
  · decide

/-- C2 counterexample: in the body the text "hello" sits after a
Section marker and before the next (Title) marker, yet it is emitted as
a standalone Markdown segment while the Section content stays empty;
the claim demands the Section content be "hello". -/
theorem c2_backfill_counterexample :
    parseMarkdownBody "S: title: \"A\"\nhello\nT: x" =
      some [.sectionPart "A" "", .markdown "hello", .title "x"]
    ∧ SkillBodyPart.sectionPart "A" "hello" ∉
        [SkillBodyPart.sectionPart "A" "", SkillBodyPart.markdown "hello",
         SkillBodyPart.title "x"] := by
  constructor
  · decide
  · decide

/-- C2 amended: buffered text after a Section marker backfills that
Section (trimmed) exactly when the next marker is an Implementation
marker while the Section is still the last emitted segment, or at end
of input while the Section content is still empty; when the next marker
is a Title or Section marker the buffered text becomes a standalone
Markdown segment and the Section content stays empty. -/
theorem c2_backfill_amended (parts : List SkillBodyPart) (t c : String) (buf : List Char)
    (rest : List (List Char)) (line : List Char) (hbuf : buf ≠ []) :
    (∀ lang, implMatch line = some lang →
       scanGo (line :: rest) (parts ++ [.sectionPart t c]) buf (.normal false) =
         scanGo rest (parts ++ [.sectionPart t (goTrimS buf)]) [] (.implSkip lang))
    ∧ (c = "" →
       finalFlush (parts ++ [.sectionPart t c]) buf = parts ++ [.sectionPart t (goTrimS buf)])
    ∧ (∀ txt, titleMatch line = some txt →
       scanGo (line :: rest) (parts ++ [.sectionPart t c]) buf (.normal false) =
         scanGo rest
           (parts ++ [.sectionPart t c, .markdown (goTrimS buf), .title (String.mk txt)])
           [] (.normal false))
    ∧ (∀ st, titleMatch line = none → sectionMatch line = some st →
       scanGo (line :: rest) (parts ++ [.sectionPart t c]) buf (.normal false) =
         scanGo rest
           (parts ++ [.sectionPart t c, .markdown (goTrimS buf), .sectionPart (String.mk st) ""])
           [] (.normal false)) := by
  refine ⟨?_, ?_, ?_, ?_⟩
  · intro lang himpl
    have ht := implMatch_titleMatch line lang himpl
    have hs := implMatch_sectionMatch line lang himpl
    have hf := implMatch_not_fence line lang himpl
    rw [scanGo_normal_cons]
    simp only [hf, ht, hs, himpl, implFlush_section parts t c buf hbuf, Bool.not_false,
      if_false, Bool.false_eq_true]
  · intro hc
    subst hc
    exact finalFlush_section_empty parts t buf hbuf
  · intro txt htl
    have hf := titleMatch_not_fence line txt htl
    rw [scanGo_normal_cons]
    simp only [hf, htl, Bool.not_false, if_false, Bool.false_eq_true,
      emitFlush_ne _ buf hbuf]
    simp
  · intro st htl hsc
    have hf := sectionMatch_not_fence line st hsc
    rw [scanGo_normal_cons]
    simp only [hf, htl, hsc, Bool.not_false, if_false, Bool.false_eq_true,
      emitFlush_ne _ buf hbuf]
    simp

/-- C2 amended witness: the amended behavior at concrete inputs, with
one application per backfill site. -/
theorem c2_backfill_amended_witness :
    (scanGo ["This is the implementation in go".data] [.sectionPart "A" ""] "z".data
        (.normal false) =
      scanGo [] [.sectionPart "A" (goTrimS "z".data)] [] (.implSkip "go".data))
    ∧ finalFlush [.sectionPart "A" ""] "z".data = [.sectionPart "A" (goTrimS "z".data)]
    ∧ (scanGo ["T: x".data] [.sectionPart "A" ""] "z".data (.normal false) =
       scanGo []
         [.sectionPart "A" "", .markdown (goTrimS "z".data), .title (String.mk "x".data)]
         [] (.normal false)) := by
  refine ⟨?_, ?_, ?_⟩
  · exact ((c2_backfill_amended [] "A" "" "z".data [] "This is the implementation in go".data
      (by decide)).1 "go".data (by decide))
  · exact ((c2_backfill_amended [] "A" "" "z".data [] "This is the implementation in go".data
      (by decide)).2.1 rfl)
  · exact ((c2_backfill_amended [] "A" "" "z".data [] "T: x".data (by decide)).2.2.1 "x".data
      (by decide))

/-- C3 counterexample: the document consisting of the single line
"--- ---" contains no delimiter line (no line is exactly three dashes),
yet extraction does not fail with the missing-frontmatter error: the
code splits on the first two substring occurrences of three dashes and
succeeds (with a decoder that accepts the blank frontmatter, as the
real YAML decoder does). -/
theorem c3_split_counterexample :
    specDelimiterLineCount "--- ---".data = 0
    ∧ extractFrontmatterAndBody (fun _ => some {}) "--- ---".data = .ok {} ""
    ∧ extractFrontmatterAndBody (fun _ => some {}) "--- ---".data ≠ .errMissingFrontmatter := by
  refine ⟨by decide, by decide, by decide⟩

/-- C3 amended: extractFrontmatterAndBody splits on the first two
non-overlapping occurrences of the three-dash byte sequence anywhere in
the document, not on delimiter lines: it fails with the
missing-frontmatter error exactly when the document holds fewer than
two such occurrences, and with two it decomposes the document into
preamble, frontmatter block and remainder, decodes the frontmatter and
returns the whitespace-trimmed remainder as the body. -/
theorem c3_split_amended (y : String → Option SkillMeta) (data : List Char) :
    (extractFrontmatterAndBody y data = .errMissingFrontmatter ↔ hasTwoSeps data = false)
    ∧ (∀ pre r1 fm body2, splitFirst fmSep data = some (pre, r1) →
        splitFirst fmSep r1 = some (fm, body2) →
        data = pre ++ fmSep ++ fm ++ fmSep ++ body2
        ∧ extractFrontmatterAndBody y data =
            (match y (String.mk fm) with
             | none => .errInvalidMetadata
             | some m => .ok m (goTrimS body2))) := by
  constructor
  · cases h1 : splitFirst fmSep data with
    | none =>
      simp [extractFrontmatterAndBody, goSplitN3, h1, hasTwoSeps]
    | some pr =>
      obtain ⟨p, r⟩ := pr
      cases h2 : splitFirst fmSep r with
      | none =>
        simp [extractFrontmatterAndBody, goSplitN3, h1, h2, hasTwoSeps]
      | some fb =>
        obtain ⟨f, b⟩ := fb
        simp only [extractFrontmatterAndBody, goSplitN3, h1, h2, hasTwoSeps]
        cases hy : y (String.mk f) <;> simp [hy]
  · intro pre r1 fm body2 h1 h2
    constructor
    · have hd := splitFirst_some fmSep data pre r1 h1
      have hr := splitFirst_some fmSep r1 fm body2 h2
      rw [hd, hr]
      simp [List.append_assoc]
    · simp [extractFrontmatterAndBody, goSplitN3, h1, h2]

/-- C3 amended witness: the amended splitting behavior on a concrete
document with two inline three-dash occurrences. -/
theorem c3_split_amended_witness :
    "a---b---c".data = "a".data ++ fmSep ++ "b".data ++ fmSep ++ "c".data
    ∧ extractFrontmatterAndBody (fun _ => some {}) "a---b---c".data = .ok {} "c" := by
  have h := (c3_split_amended (fun _ => some {}) "a---b---c".data).2 "a".data "b---c".data
    "b".data "c".data (by decide) (by decide)
  refine ⟨h.1, ?_⟩
  rw [h.2]
  decide

/-- C5: a line matching the title pattern while the open-fence flag is
set emits no Title segment: the scan step appends the line to the
accumulation buffer as plain content, leaving the emitted parts
unchanged. -/
theorem c5_fence_suppression (line : List Char) (rest : List (List Char))
    (parts : List SkillBodyPart) (buf : List Char) (t : List Char)
    (h : titleMatch line = some t) :
    scanGo (line :: rest) parts buf (.normal true) =
      scanGo rest parts (buf ++ line ++ ['\n']) (.normal true) := by
  have hf := titleMatch_not_fence line t h
  rw [scanGo_normal_cons]
  simp [hf]

/-- C5 witness: fence suppression at a concrete title-matching line. -/
theorem c5_fence_suppression_witness :
    scanGo ["T: hi".data] [] [] (.normal true) =
      scanGo [] [] ([] ++ "T: hi".data ++ ['\n']) (.normal true) :=
  c5_fence_suppression "T: hi".data [] [] [] "hi".data (by decide)

/-- C6: when an implementation marker line is immediately followed by a
fenced block, the emitted Implementation code is exactly the fenced
lines joined with their line breaks; the opening fence line is consumed
by the unconditional skip and the closing fence line terminates the
collection exclusively, so neither appears in the code. -/
theorem c6_impl_code_excludes_fences (line lang openF closeF : List Char)
    (codeLines after : List (List Char)) (parts parts2 : List SkillBodyPart) (buf : List Char)
    (himpl : implMatch line = some lang)
    (hflush : implFlush parts buf = some parts2)
    (hopen : isFenceLine openF = true)
    (hclose : isFenceLine closeF = true)
    (hcode : ∀ l ∈ codeLines, isFenceLine l = false) :
    scanGo (line :: openF :: (codeLines ++ closeF :: after)) parts buf (.normal false) =
      scanGo after
        (parts2 ++ [.implementation (String.mk lang) (String.mk (joinNl codeLines))])
        [] (.normal false) := by
  have ht := implMatch_titleMatch line lang himpl
  have hs := implMatch_sectionMatch line lang himpl
  have hf := implMatch_not_fence line lang himpl
  rw [scanGo_normal_cons]
  simp only [hf, ht, hs, himpl, hflush, Bool.not_false, if_false, Bool.false_eq_true]
  rw [scanGo_implSkip_cons,
    scanGo_implCollect_append codeLines closeF after parts2 [] lang [] hcode hclose]
  simp

/-- C6 witness: implementation extraction at a concrete marker and
fenced block. -/
theorem c6_impl_code_excludes_fences_witness :
    scanGo ("This is the implementation in bash".data :: "```bash".data ::
        (["echo hi".data] ++ "```".data :: [])) [] [] (.normal false) =
      scanGo []
        ([] ++ [.implementation (String.mk "bash".data)
          (String.mk (joinNl ["echo hi".data]))]) [] (.normal false) :=
  c6_impl_code_excludes_fences "This is the implementation in bash".data "bash".data
    "```bash".data "```".data ["echo hi".data] [] [] [] [] (by decide) (by decide)
    (by decide) (by decide) (by decide)

/-- C7: ParseSkillPackage fails with the missing-directory kind (the
two directory-level messages) when the backing path is absent or not a
directory, fails with the missing-definition-file kind when the
directory exists but SKILL.md is absent, and every error return carries
no package. -/
theorem c7_package_error_kinds (w : World) (p : String) :
    (w.stat p = .notExist ∨ w.stat p = .found false →
       ∃ e, ParseSkillPackage w p = some (none, some e) ∧ isMissingDirectoryErr e = true)
    ∧ (w.stat p = .found true → w.readFile (pathJoin p "SKILL.md") = .notExist →
       ParseSkillPackage w p = some (none, some .skillMdNotFound))
    ∧ (∀ r e, ParseSkillPackage w p = some (r, some e) → r = none) := by
  refine ⟨?_, ?_, ?_⟩
  · rintro (h | h)
    · exact ⟨.skillDirNotFound, by simp [ParseSkillPackage, h], rfl⟩
    · exact ⟨.pathNotADirectory, by simp [ParseSkillPackage, h], rfl⟩
  · intro h1 h2
    simp [ParseSkillPackage, h1, h2]
  · intro r e h
    unfold ParseSkillPackage at h
    repeat' split at h
    all_goals simp_all

/-- C7 witness: the error kinds at concrete worlds. -/
theorem c7_package_error_kinds_witness :
    (∃ e, ParseSkillPackage wAbsent "d" = some (none, some e) ∧ isMissingDirectoryErr e = true)
    ∧ ParseSkillPackage wNoMd "d" = some (none, some .skillMdNotFound)
    ∧ (none : Option SkillPackage) = none := by
  refine ⟨(c7_package_error_kinds wAbsent "d").1 (Or.inl rfl),
    (c7_package_error_kinds wNoMd "d").2.1 rfl rfl,
    (c7_package_error_kinds wAbsent "d").2.2 none .skillDirNotFound (by decide)⟩

/-- C8: splitting, decoding and segmenting are deterministic: the
embedded functions read no external state (the Go originals consult
only their arguments and immutable package-level regexes), so equal
input bytes give structurally equal results. -/
theorem c8_deterministic (y : String → Option SkillMeta) (d1 d2 : List Char) (b1 b2 : String)
    (hd : d1 = d2) (hb : b1 = b2) :
    extractFrontmatterAndBody y d1 = extractFrontmatterAndBody y d2
    ∧ parseMarkdownBody b1 = parseMarkdownBody b2 := by
  subst hd; subst hb
  exact ⟨rfl, rfl⟩

/-- C8 witness: determinism at a concrete document and body. -/
theorem c8_deterministic_witness :
    extractFrontmatterAndBody (fun _ => some {}) "---a---b".data =
      extractFrontmatterAndBody (fun _ => some {}) "---a---b".data
    ∧ parseMarkdownBody "T: x\nbody" = parseMarkdownBody "T: x\nbody" :=
  c8_deterministic (fun _ => some {}) "---a---b".data "---a---b".data "T: x\nbody"
    "T: x\nbody" rfl rfl

/-- C9: a missing resource category directory is never an error: its
scan returns the empty list, and a successfully assembled package lists
that category as empty. -/
theorem c9_missing_resource_dirs (w : World) (p : String) :
    (∀ cat, w.stat (pathJoin p cat) = .notExist → findResourceFiles w p cat = some [])
    ∧ ∀ pkg, ParseSkillPackage w p = some (some pkg, none) →
        (w.stat (pathJoin p "scripts") = .notExist → pkg.resources.scripts = [])
        ∧ (w.stat (pathJoin p "references") = .notExist → pkg.resources.references = [])
        ∧ (w.stat (pathJoin p "assets") = .notExist → pkg.resources.assets = []) := by
  constructor
  · intro cat hc
    simp [findResourceFiles, hc]
  · intro pkg hp
    obtain ⟨h1, h2, h3⟩ := parseOk_resources w p pkg hp
    refine ⟨fun hc => ?_, fun hc => ?_, fun hc => ?_⟩
    · have h0 : findResourceFiles w p "scripts" = some [] := by
        simp [findResourceFiles, hc]
      rw [h0] at h1
      simpa using h1.symm
    · have h0 : findResourceFiles w p "references" = some [] := by
        simp [findResourceFiles, hc]
      rw [h0] at h2
      simpa using h2.symm
    · have h0 : findResourceFiles w p "assets" = some [] := by
        simp [findResourceFiles, hc]
      rw [h0] at h3
      simpa using h3.symm

/-- C9 witness: a concrete package directory with no resource
subdirectories parses successfully with all three lists empty. -/
theorem c9_missing_resource_dirs_witness :
    findResourceFiles wOk "d" "scripts" = some []
    ∧ pkgOk.resources.scripts = [] ∧ pkgOk.resources.references = []
    ∧ pkgOk.resources.assets = [] := by
  have h := c9_missing_resource_dirs wOk "d"
  have hp : ParseSkillPackage wOk "d" = some (some pkgOk, none) := by decide
  obtain ⟨ha, hb, hc⟩ := h.2 pkgOk hp
  exact ⟨h.1 "scripts" (by decide), ha (by decide), hb (by decide), hc (by decide)⟩

/-- C10: the line immediately after an implementation marker matched
outside an open fence is consumed unconditionally: the scan result does
not depend on that line at all, so it never appears in any output
segment (whether or not it is a fence-opening line). -/
theorem c10_impl_skips_next_line (line s1 s2 : List Char) (rest : List (List Char))
    (parts : List SkillBodyPart) (buf : List Char) (lang : List Char)
    (h : implMatch line = some lang) :
    scanGo (line :: s1 :: rest) parts buf (.normal false) =
      scanGo (line :: s2 :: rest) parts buf (.normal false) := by
  have ht := implMatch_titleMatch line lang h
  have hs := implMatch_sectionMatch line lang h
  have hf := implMatch_not_fence line lang h
  rw [scanGo_normal_cons, scanGo_normal_cons]
  simp only [hf, ht, hs, h, Bool.not_false, if_false, Bool.false_eq_true]
  cases hfl : implFlush parts buf with
  | none => simp
  | some parts2 => simp [scanGo_implSkip_cons]

/-- C10 witness: replacing the skipped line by a different line (one
that would otherwise be a title marker) leaves the result unchanged. -/
theorem c10_impl_skips_next_line_witness :
    scanGo ["This is the implementation in go".data, "AAA".data] [] [] (.normal false) =
      scanGo ["This is the implementation in go".data, "T: x".data] [] [] (.normal false) :=
  c10_impl_skips_next_line "This is the implementation in go".data "AAA".data "T: x".data
    [] [] [] "go".data (by decide)

end GoSkills
